import Mathlib

/-!
Shallow embedding of the disaster-response ETL script
(`data/process_data.py`): `load_data` (CSV merge on `id`), `clean_data`
(category expansion, binary coercion, duplicate removal, null filling)
and `save_data` (replace-write of one named table into a database file),
together with theorems about the transformation contract.

A dataframe is modelled as a header list plus a list of rows; a cell is an
integer, a string, or the missing value `null` (pandas `NaN`).  Numeric CSV
cells are modelled as integers.  Python exceptions are modelled by the
`Err` type; every fallible operation returns `Except Err _`.
-/

set_option autoImplicit false

namespace ProcessData

/-- Cell value of a dataframe: a number, a string, or a missing value
(pandas `NaN` / `None`). -/
inductive Value where
  | int (n : Int)
  | str (s : String)
  | null
  deriving DecidableEq, Repr

/-- A dataframe row: one cell per column. -/
abbrev Row := List Value

/-- A dataframe: column labels plus rows. -/
structure Table where
  headers : List String
  rows : List Row
  deriving DecidableEq, Repr

/-- Python exception kinds raised by the script's operations. -/
inductive Err where
  /-- column-label lookup failure (`KeyError`). -/
  | keyError
  /-- positional lookup failure, e.g. `iloc[0]` on an empty frame or
  `""[-1]` (`IndexError`). -/
  | indexError
  /-- operation on a value of the wrong type, e.g. `None[-1]`
  (`TypeError`). -/
  | typeError
  /-- `int(x)` on a non-numeric string (`ValueError`). -/
  | parseError
  deriving DecidableEq, Repr

deriving instance DecidableEq for Except

/-- Whether an `Except` computation returned normally. -/
def isOkE {α : Type} : Except Err α → Bool
  | .ok _ => true
  | .error _ => false

/-- Index of the first column with the given label, as pandas label lookup
`df[name]` resolves it (`none` models `KeyError`). -/
def getColIdx : List String → String → Option Nat
  | [], _ => none
  | h :: hs, name => if h = name then some 0 else (getColIdx hs name).map (· + 1)

/-- Cell of a row at column index `j`; absent positions read as missing. -/
def cellAt (r : Row) (j : Nat) : Value := r.getD j .null

/-- Python `s.split(";")` on the character list of `s`: split on every
separator, keeping empty pieces. -/
def splitCharsAux : List Char → List Char → List (List Char)
  | [], acc => [acc.reverse]
  | c :: cs, acc =>
      if c = ';' then acc.reverse :: splitCharsAux cs []
      else splitCharsAux cs (c :: acc)

/-- Python `s.split(";")`. -/
def splitSemi (s : String) : List String :=
  (splitCharsAux s.toList []).map String.mk

/-- Python `x[-1]` on a string: last character, if any. -/
def strLast (s : String) : Option Char := s.toList.getLast?

/-- Python `x[:-2]` on a string. -/
def dropLast2 (s : String) : String := String.mk s.toList.dropLast.dropLast

/-- Numeric value of a digit character. -/
def digitVal (c : Char) : Nat := c.toNat - '0'.toNat

/-- Pandas `Series.str.split(";")` on one cell: a non-string cell yields
`NaN` (modelled `none`), a string cell yields its token list. -/
def splitCell : Value → Option (List String)
  | .str s => some (splitSemi s)
  | _ => none

/-- Width of the expanded category frame (`expand = True`): the maximum
token count over the string cells, and one column when no cell splits. -/
def gridWidth (tls : List (Option (List String))) : Nat :=
  max 1 (tls.foldr (fun o acc =>
    match o with
    | some l => max l.length acc
    | none => acc) 0)

/-- One row of the expanded category frame: tokens padded with `NaN`
(`none`) up to the frame width, a non-splitting row being all `NaN`. -/
def padTo (w : Nat) : Option (List String) → List (Option String)
  | none => List.replicate w none
  | some l => l.map some ++ List.replicate (w - l.length) none

/-- Token lists of the `categories` column (index `j`) of a frame. -/
def catSplits (df : Table) (j : Nat) : List (Option (List String)) :=
  df.rows.map (fun r => splitCell (cellAt r j))

/-- Expanded category frame `df['categories'].str.split(";", expand = True)`
as a padded grid of optional tokens. -/
def catGrid (df : Table) (j : Nat) : List (List (Option String)) :=
  (catSplits df j).map (padTo (gridWidth (catSplits df j)))

/-- Error-propagating map over a list, failing at the first failing
element, as element-wise pandas `apply` fails at the first raising cell. -/
def mapME {α β : Type} (f : α → Except Err β) : List α → Except Err (List β)
  | [] => .ok []
  | a :: as =>
    match f a with
    | .error e => .error e
    | .ok b =>
      match mapME f as with
      | .error e => .error e
      | .ok bs => .ok (b :: bs)

/-- Lines 47-52: one cell of the expanded frame, `x[-1]` then
`1 if int(x) > 0 else 0`.  A `NaN` cell (`None[-1]`) raises `TypeError`;
an empty token (`""[-1]`) raises `IndexError`; a non-digit final
character (`int(x)`) raises `ValueError`. -/
def tokVal : Option String → Except Err Int
  | none => .error .typeError
  | some tok =>
    match strLast tok with
    | none => .error .indexError
    | some c =>
      if c.isDigit then .ok (if 0 < digitVal c then 1 else 0)
      else .error .parseError

/-- Lines 41-42: one derived column name, `x[:-2]` on a first-row token;
a `NaN` first-row cell (`None[:-2]`) raises `TypeError`. -/
def colNameOf : Option String → Except Err String
  | none => .error .typeError
  | some tok => .ok (dropLast2 tok)

/-- Row cells kept by `df.drop(['categories'], axis=1)`: the cells whose
column label differs from `categories`. -/
def dropCat : List String → Row → Row
  | _, [] => []
  | [], _ => []
  | h :: hs, v :: vs =>
      if h = "categories" then dropCat hs vs else v :: dropCat hs vs

/-- Column labels kept by `df.drop(['categories'], axis=1)`. -/
def dropCatHeaders (hs : List String) : List String :=
  hs.filter (fun h => h ≠ "categories")

/-- Line 56: `df.drop(['categories'], axis=1)`. -/
def dropCatTable (df : Table) : Table :=
  ⟨dropCatHeaders df.headers, df.rows.map (dropCat df.headers)⟩

/-- First-kept duplicate removal: `drop_duplicates` keeps the first
occurrence of every fully-identical row. -/
def dedupFirst {α : Type} [DecidableEq α] (seen : List α) : List α → List α
  | [] => []
  | a :: as =>
      if a ∈ seen then dedupFirst seen as
      else a :: dedupFirst (a :: seen) as

/-- Line 62: `df.drop_duplicates()`. -/
def dedupRows (l : List Row) : List Row := dedupFirst [] l

/-- Pandas dtype kind test used on line 66: a column whose every cell is a
number or missing has a numeric dtype (kind in `biufc`); a column holding
any string has dtype `object`. -/
def colIsNumeric (col : List Value) : Bool :=
  col.all fun v =>
    match v with
    | .str _ => false
    | _ => true

/-- Column `j` of a frame as a cell list. -/
def colAt (t : Table) (j : Nat) : List Value := t.rows.map (fun r => cellAt r j)

/-- Line 66 on one cell: `fillna(0)` for a numeric-dtype column,
`fillna('.')` otherwise. -/
def fillValue (numeric : Bool) : Value → Value
  | .null => if numeric then .int 0 else .str "."
  | v => v

/-- Numeric-dtype flag of every column of a frame. -/
def fillFlags (t : Table) : List Bool :=
  (List.range t.headers.length).map (fun j => colIsNumeric (colAt t j))

/-- Line 66 on one row, given the per-column dtype flags. -/
def fillRow : List Bool → Row → Row
  | _, [] => []
  | [], r => r
  | f :: fs, v :: vs => fillValue f v :: fillRow fs vs

/-- Line 66: `df.apply(lambda x: x.fillna(0) if x.dtype.kind in 'biufc'
else x.fillna('.'))`. -/
def fillTable (t : Table) : Table :=
  ⟨t.headers, t.rows.map (fillRow (fillFlags t))⟩

/-- Lines 38-59 of `clean_data`: split the `categories` column into the
expanded grid, derive the column names from the first grid row, coerce
every grid cell to a binary indicator, drop the raw `categories` column
and append the derived columns by row position.

The source transforms the grid column by column (`for column in
categories`); the per-cell transform is independent of every other cell,
so the grid is traversed here row by row: success, the resulting cells,
and the presence of an error agree with the source, only the choice among
several failing cells' exceptions can differ.  When the derived column
names collide, `categories[column]` selects a two-column frame whose
element-wise rewrite raises (`KeyError` on its label-indexed cells); a
collision is therefore mapped to an error before the cell transform. -/
def cleanTransformed (df : Table) : Except Err Table :=
  match getColIdx df.headers "categories" with
  | none => .error .keyError
  | some j =>
    match (catGrid df j).head? with
    | none => .error .indexError
    | some row0 =>
      match mapME colNameOf row0 with
      | .error e => .error e
      | .ok colnames =>
        if colnames.Nodup then
          match mapME (fun pr => mapME tokVal pr) (catGrid df j) with
          | .error e => .error e
          | .ok derived =>
            .ok ⟨dropCatHeaders df.headers ++ colnames,
              List.zipWith (fun b d => b ++ d.map Value.int)
                (dropCatTable df).rows derived⟩
        else .error .keyError

/-- Lines 29-69: `clean_data` = category transformation (lines 38-59),
then `drop_duplicates` (line 62), then typed `fillna` (line 66). -/
def clean_data (df : Table) : Except Err Table :=
  match cleanTransformed df with
  | .error e => .error e
  | .ok w => .ok (fillTable ⟨w.headers, dedupRows w.rows⟩)

/-- State of the caller's dataframe object after `clean_data` returns or
raises: line 56 drops the raw `categories` column of the argument in
place (`inplace = True`), and it runs exactly when lines 38-52 succeed;
the later statements rebind the local name to fresh frames.  The stages
of `cleanTransformed` after line 52 cannot fail, so reaching line 56 is
equivalent to `cleanTransformed` succeeding. -/
def cleanArgAfter (df : Table) : Table :=
  match cleanTransformed df with
  | .ok _ => dropCatTable df
  | .error _ => df

/-- Lines 7-26: read both CSV files (modelled as given tables) and merge
them on the `id` column with suffixes `('_left', '_right')` on colliding
labels; an absent `id` column raises `KeyError`.  The merge is the inner
equi-join: left rows in order, each paired with every right row whose
`id` cell matches; the right `id` column is not repeated. -/
def load_data (messages categories : Table) : Except Err Table :=
  match getColIdx messages.headers "id", getColIdx categories.headers "id" with
  | some i, some j =>
    .ok ⟨messages.headers.map
          (fun h => if h ≠ "id" ∧ h ∈ categories.headers then h ++ "_left" else h)
        ++ (categories.headers.eraseIdx j).map
          (fun h => if h ∈ messages.headers then h ++ "_right" else h),
        messages.rows.flatMap (fun m =>
          (categories.rows.filter (fun c => cellAt c j = cellAt m i)).map
            (fun c => m ++ c.eraseIdx j))⟩
  | _, _ => .error .keyError

/-- A database server state: database file ↦ table name ↦ stored table. -/
def DBState : Type := String → String → Option Table

/-- Lines 74-84: `df.to_sql('DisasterMessages', engine, index=False,
if_exists='replace')` against `sqlite:/// + database_filename`: the
cleaned frame replaces any table named `DisasterMessages` in that one
database file unconditionally; every other file and table is untouched. -/
def save_data (df : Table) (database_filename : String) (db : DBState) : DBState :=
  fun file table =>
    if file = database_filename ∧ table = "DisasterMessages" then some df
    else db file table

/-- Lines 87-110: one run of the script on parsed inputs — load, clean,
save; an exception at any stage terminates the process with the store
unchanged. -/
def pipeline (messages categories : Table) (database_filepath : String)
    (db : DBState) : DBState :=
  match load_data messages categories with
  | .error _ => db
  | .ok df =>
    match clean_data df with
    | .error _ => db
    | .ok df2 => save_data df2 database_filepath db

/-- Whether some row's category cell holds a token whose final character
is not a numeric digit — the inputs on which line 52's `int(x)` raises. -/
def hasBadToken (t : Table) : Bool :=
  match getColIdx t.headers "categories" with
  | none => false
  | some j =>
    t.rows.any (fun r =>
      match cellAt r j with
      | .str s => (splitSemi s).any (fun tok =>
          match strLast tok with
          | some c => !c.isDigit
          | none => false)
      | _ => false)

/-- Whether every category token of every row ends in a numeric digit
(tokens only exist for string-valued category cells). -/
def allGoodTokens (t : Table) : Bool :=
  match getColIdx t.headers "categories" with
  | none => true
  | some j =>
    t.rows.all (fun r =>
      match cellAt r j with
      | .str s => (splitSemi s).all (fun tok =>
          match strLast tok with
          | some c => c.isDigit
          | none => false)
      | _ => true)

/-! ### Lemmas about the list helpers -/

theorem mapME_ok_spec {α β : Type} {f : α → Except Err β} {l : List α} {l' : List β}
    (h : mapME f l = .ok l') :
    l'.length = l.length ∧
      ∀ (n : Nat) (a : α), l[n]? = some a → ∃ b, f a = .ok b ∧ l'[n]? = some b := by
  induction l generalizing l' with
  | nil =>
    rw [mapME] at h
    cases h
    simp
  | cons a as ih =>
    rw [mapME] at h
    cases hf : f a with
    | error e => rw [hf] at h; cases h
    | ok b =>
      rw [hf] at h
      cases hm : mapME f as with
      | error e => rw [hm] at h; cases h
      | ok bs =>
        rw [hm] at h
        cases h
        obtain ⟨hlen, hget⟩ := ih hm
        refine ⟨by simp [hlen], ?_⟩
        intro n a' hn
        cases n with
        | zero =>
          simp only [List.getElem?_cons_zero, Option.some.injEq] at hn
          subst hn
          exact ⟨b, hf, by simp⟩
        | succ n =>
          simp only [List.getElem?_cons_succ] at hn ⊢
          exact hget n a' hn

theorem mapME_ok_forall {α β : Type} {f : α → Except Err β} {l : List α} {l' : List β}
    (h : mapME f l = .ok l') : ∀ a ∈ l, ∃ b, f a = .ok b := by
  intro a ha
  obtain ⟨n, hn⟩ := List.getElem?_of_mem ha
  obtain ⟨b, hb, -⟩ := (mapME_ok_spec h).2 n a hn
  exact ⟨b, hb⟩

theorem mapME_error_mem {α β : Type} {f : α → Except Err β} {l : List α} {e : Err}
    (h : mapME f l = .error e) : ∃ a ∈ l, f a = .error e := by
  induction l with
  | nil => simp [mapME] at h
  | cons a as ih =>
    rw [mapME] at h
    cases hf : f a with
    | error e' =>
      rw [hf] at h
      cases h
      exact ⟨a, List.mem_cons_self a as, hf⟩
    | ok b =>
      rw [hf] at h
      cases hm : mapME f as with
      | error e' =>
        rw [hm] at h
        cases h
        obtain ⟨x, hx, hfx⟩ := ih hm
        exact ⟨x, List.mem_cons_of_mem a hx, hfx⟩
      | ok bs => rw [hm] at h; cases h

theorem mapME_isError_of_mem {α β : Type} {f : α → Except Err β} {l : List α} {a : α}
    {e : Err} (ha : a ∈ l) (hf : f a = .error e) : ∃ e', mapME f l = .error e' := by
  cases hm : mapME f l with
  | error e' => exact ⟨e', rfl⟩
  | ok l' =>
    obtain ⟨b, hb⟩ := mapME_ok_forall hm a ha
    rw [hf] at hb
    cases hb

theorem mem_dedupFirst {α : Type} [DecidableEq α] {seen l : List α} {x : α} :
    x ∈ dedupFirst seen l ↔ x ∈ l ∧ x ∉ seen := by
  induction l generalizing seen with
  | nil => simp [dedupFirst]
  | cons a as ih =>
    by_cases ha : a ∈ seen
    · rw [dedupFirst, if_pos ha, ih]
      constructor
      · rintro ⟨hx, hs⟩
        exact ⟨List.mem_cons_of_mem a hx, hs⟩
      · rintro ⟨hx, hs⟩
        rcases List.mem_cons.1 hx with rfl | hx
        · exact absurd ha hs
        · exact ⟨hx, hs⟩
    · rw [dedupFirst, if_neg ha]
      constructor
      · intro hx
        rcases List.mem_cons.1 hx with rfl | hx
        · exact ⟨List.mem_cons_self x as, ha⟩
        · obtain ⟨h1, h2⟩ := ih.1 hx
          exact ⟨List.mem_cons_of_mem a h1,
            fun hs => h2 (List.mem_cons_of_mem a hs)⟩
      · rintro ⟨hx, hs⟩
        rcases List.mem_cons.1 hx with rfl | hx
        · exact List.mem_cons_self x _
        · by_cases hxa : x = a
          · subst hxa
            exact List.mem_cons_self x _
          · exact List.mem_cons_of_mem a (ih.2 ⟨hx, by
              intro hmem
              rcases List.mem_cons.1 hmem with h | h
              · exact hxa h
              · exact hs h⟩)

theorem nodup_dedupFirst {α : Type} [DecidableEq α] (seen l : List α) :
    (dedupFirst seen l).Nodup := by
  induction l generalizing seen with
  | nil => simp [dedupFirst]
  | cons a as ih =>
    by_cases ha : a ∈ seen
    · rw [dedupFirst, if_pos ha]
      exact ih seen
    · rw [dedupFirst, if_neg ha]
      rw [List.nodup_cons]
      refine ⟨?_, ih (a :: seen)⟩
      intro hmem
      exact (mem_dedupFirst.1 hmem).2 (List.mem_cons_self a seen)

theorem mem_dedupRows {l : List Row} {r : Row} : r ∈ dedupRows l ↔ r ∈ l := by
  rw [dedupRows, mem_dedupFirst]
  simp

theorem nodup_dedupRows (l : List Row) : (dedupRows l).Nodup := nodup_dedupFirst [] l

theorem fillValue_ne_null (f : Bool) (v : Value) : fillValue f v ≠ .null := by
  cases v with
  | null => cases f <;> simp [fillValue]
  | int n => simp [fillValue]
  | str s => simp [fillValue]

theorem fillValue_of_ne_null {f : Bool} {v : Value} (h : v ≠ .null) : fillValue f v = v := by
  cases v with
  | null => exact absurd rfl h
  | int n => rfl
  | str s => rfl

theorem fillRow_length (fs : List Bool) (r : Row) : (fillRow fs r).length = r.length := by
  induction r generalizing fs with
  | nil => cases fs <;> rfl
  | cons v vs ih =>
    cases fs with
    | nil => rfl
    | cons f fs' => simp [fillRow, ih]

theorem fillRow_getElem? {fs : List Bool} {r : Row} {n : Nat} (hn : n < fs.length) :
    (fillRow fs r)[n]? = r[n]?.map (fillValue (fs.getD n false)) := by
  induction fs generalizing r n with
  | nil => exact absurd hn (by simp)
  | cons f fs' ih =>
    cases r with
    | nil => simp [fillRow]
    | cons v vs =>
      cases n with
      | zero => simp [fillRow]
      | succ n =>
        simp only [fillRow, List.getElem?_cons_succ, List.getD_cons_succ]
        exact ih (Nat.lt_of_succ_lt_succ hn)

theorem fillRow_no_null {fs : List Bool} {r : Row} (h : r.length ≤ fs.length) :
    ∀ v ∈ fillRow fs r, v ≠ .null := by
  induction r generalizing fs with
  | nil =>
    intro v hv
    cases fs <;> simp [fillRow] at hv
  | cons x xs ih =>
    intro v hv
    cases fs with
    | nil => exact absurd h (by simp)
    | cons f fs' =>
      simp only [fillRow, List.mem_cons] at hv
      rcases hv with rfl | hv
      · exact fillValue_ne_null f x
      · exact ih (Nat.le_of_succ_le_succ h) v hv

theorem fillRow_of_no_null {fs : List Bool} {r : Row} (h : ∀ v ∈ r, v ≠ .null) :
    fillRow fs r = r := by
  induction r generalizing fs with
  | nil => cases fs <;> rfl
  | cons x xs ih =>
    cases fs with
    | nil => rfl
    | cons f fs' =>
      rw [fillRow, fillValue_of_ne_null (h x (List.mem_cons_self x xs)),
        ih (fun v hv => h v (List.mem_cons_of_mem x hv))]

theorem mem_dropCat {hs : List String} {r : Row} {v : Value} (h : v ∈ dropCat hs r) :
    v ∈ r := by
  induction hs generalizing r with
  | nil =>
    cases r <;> simp [dropCat] at h
  | cons h0 hs' ih =>
    cases r with
    | nil => simp [dropCat] at h
    | cons x xs =>
      by_cases hc : h0 = "categories"
      · rw [dropCat, if_pos hc] at h
        exact List.mem_cons_of_mem x (ih h)
      · rw [dropCat, if_neg hc] at h
        rcases List.mem_cons.1 h with rfl | h
        · exact List.mem_cons_self v xs
        · exact List.mem_cons_of_mem x (ih h)

theorem dropCatHeaders_cons (h0 : String) (hs : List String) :
    dropCatHeaders (h0 :: hs) =
      if h0 = "categories" then dropCatHeaders hs else h0 :: dropCatHeaders hs := by
  by_cases hc : h0 = "categories" <;> simp [dropCatHeaders, hc]

theorem dropCat_length_le (hs : List String) (r : Row) :
    (dropCat hs r).length ≤ (dropCatHeaders hs).length := by
  induction hs generalizing r with
  | nil => cases r <;> simp [dropCat, dropCatHeaders]
  | cons h0 hs' ih =>
    cases r with
    | nil => simp [dropCat]
    | cons x xs =>
      by_cases hc : h0 = "categories"
      · rw [dropCat, if_pos hc, dropCatHeaders_cons, if_pos hc]
        exact ih xs
      · rw [dropCat, if_neg hc, dropCatHeaders_cons, if_neg hc]
        simpa using ih xs

theorem dropCat_length_eq {hs : List String} {r : Row} (h : r.length = hs.length) :
    (dropCat hs r).length = (dropCatHeaders hs).length := by
  induction hs generalizing r with
  | nil =>
    have : r = [] := by simpa using h
    subst this
    rfl
  | cons h0 hs' ih =>
    cases r with
    | nil => exact absurd h (by simp)
    | cons x xs =>
      have hx : xs.length = hs'.length := by simpa using h
      by_cases hc : h0 = "categories"
      · rw [dropCat, if_pos hc, dropCatHeaders_cons, if_pos hc]
        exact ih hx
      · rw [dropCat, if_neg hc, dropCatHeaders_cons, if_neg hc]
        simpa using ih hx

theorem dropCat_getElem? {hs : List String} {r : Row} :
    ∀ {i : Nat} {h : String} {v : Value}, hs[i]? = some h → h ≠ "categories" →
      r[i]? = some v →
      ∃ i' : Nat, (dropCatHeaders hs)[i']? = some h ∧ (dropCat hs r)[i']? = some v := by
  induction hs generalizing r with
  | nil => intro i h v hh _ _; simp at hh
  | cons h0 hs' ih =>
    intro i h v hh hne hv
    cases r with
    | nil => simp at hv
    | cons x xs =>
      cases i with
      | zero =>
        simp only [List.getElem?_cons_zero, Option.some.injEq] at hh hv
        subst hh
        subst hv
        refine ⟨0, ?_, ?_⟩
        · rw [dropCatHeaders_cons, if_neg hne]
          simp
        · rw [dropCat, if_neg hne]
          simp
      | succ i =>
        simp only [List.getElem?_cons_succ] at hh hv
        obtain ⟨i', h1, h2⟩ := ih hh hne hv
        by_cases hc : h0 = "categories"
        · refine ⟨i', ?_, ?_⟩
          · rwa [dropCatHeaders_cons, if_pos hc]
          · rwa [dropCat, if_pos hc]
        · refine ⟨i' + 1, ?_, ?_⟩
          · rw [dropCatHeaders_cons, if_neg hc]
            simpa using h1
          · rw [dropCat, if_neg hc]
            simpa using h2

theorem getColIdx_some {hs : List String} {name : String} :
    ∀ {i : Nat}, getColIdx hs name = some i → hs[i]? = some name := by
  induction hs with
  | nil => intro i h; simp [getColIdx] at h
  | cons h0 hs' ih =>
    intro i h
    rw [getColIdx] at h
    by_cases he : h0 = name
    · rw [if_pos he] at h
      cases h
      simp [he]
    · rw [if_neg he] at h
      cases hrec : getColIdx hs' name with
      | none => rw [hrec] at h; cases h
      | some i' =>
        rw [hrec] at h
        cases h
        simpa using ih hrec

theorem getColIdx_none_iff {hs : List String} {name : String} :
    getColIdx hs name = none ↔ name ∉ hs := by
  induction hs with
  | nil => simp [getColIdx]
  | cons h0 hs' ih =>
    rw [getColIdx]
    by_cases he : h0 = name
    · simp [he]
    · rw [if_neg he]
      simp only [Option.map_eq_none', List.mem_cons, ih]
      constructor
      · intro hn hmem
        rcases hmem with h | h
        · exact he h.symm
        · exact hn h
      · intro hn
        exact fun h => hn (Or.inr h)

theorem gridWidth_pos (tls : List (Option (List String))) : 1 ≤ gridWidth tls :=
  le_max_left 1 _

theorem length_le_gridWidth {tls : List (Option (List String))} {l : List String}
    (h : some l ∈ tls) : l.length ≤ gridWidth tls := by
  refine le_trans ?_ (le_max_right 1 _)
  induction tls with
  | nil => simp at h
  | cons o rest ih =>
    rcases List.mem_cons.1 h with ho | hmem
    · rw [← ho]
      exact le_max_left _ _
    · cases o with
      | none => exact ih hmem
      | some l' => exact le_trans (ih hmem) (le_max_right _ _)

theorem mem_padTo_elim {w : Nat} {o : Option (List String)} {tok : String}
    (h : some tok ∈ padTo w o) : ∃ l, o = some l ∧ tok ∈ l := by
  cases o with
  | none =>
    rw [padTo] at h
    cases List.eq_of_mem_replicate h
  | some l =>
    rw [padTo] at h
    rcases List.mem_append.1 h with h1 | h2
    · obtain ⟨x, hx, hxe⟩ := List.mem_map.1 h1
      cases hxe
      exact ⟨l, rfl, hx⟩
    · cases List.eq_of_mem_replicate h2

theorem mem_padTo_of_mem {w : Nat} {l : List String} {tok : String} (h : tok ∈ l) :
    some tok ∈ padTo w (some l) := by
  rw [padTo]
  exact List.mem_append_left _ (List.mem_map_of_mem some h)

/-! ### Inversion of a successful `cleanTransformed` -/

theorem cleanTransformed_ok_elim {df w : Table} (h : cleanTransformed df = .ok w) :
    ∃ (j : Nat) (row0 : List (Option String)) (colnames : List String)
      (derived : List (List Int)),
      getColIdx df.headers "categories" = some j ∧
      (catGrid df j).head? = some row0 ∧
      mapME colNameOf row0 = .ok colnames ∧
      colnames.Nodup ∧
      mapME (fun pr => mapME tokVal pr) (catGrid df j) = .ok derived ∧
      w.headers = dropCatHeaders df.headers ++ colnames ∧
      w.rows = List.zipWith (fun b d => b ++ d.map Value.int)
        (dropCatTable df).rows derived := by
  cases hj : getColIdx df.headers "categories" with
  | none => simp [cleanTransformed, hj] at h
  | some j =>
    cases hh : (catGrid df j).head? with
    | none => simp [cleanTransformed, hj, hh] at h
    | some row0 =>
      cases hcn : mapME colNameOf row0 with
      | error e => simp [cleanTransformed, hj, hh, hcn] at h
      | ok colnames =>
        by_cases hnd : colnames.Nodup
        · cases hd : mapME (fun pr => mapME tokVal pr) (catGrid df j) with
          | error e => simp [cleanTransformed, hj, hh, hcn, hnd, hd] at h
          | ok derived =>
            simp only [cleanTransformed, hj, hh, hcn, hnd, if_true, hd] at h
            cases h
            exact ⟨j, row0, colnames, derived, rfl, hh, hcn, hnd, hd, rfl, rfl⟩
        · simp [cleanTransformed, hj, hh, hcn, hnd] at h

theorem clean_data_ok_iff {df : Table} {t' : Table} :
    clean_data df = .ok t' ↔
      ∃ w, cleanTransformed df = .ok w ∧
        t' = fillTable ⟨w.headers, dedupRows w.rows⟩ := by
  rw [clean_data]
  cases hct : cleanTransformed df with
  | error e =>
    simp
  | ok w =>
    constructor
    · intro h
      cases h
      exact ⟨w, rfl, rfl⟩
    · rintro ⟨w', hw', rfl⟩
      cases hw'
      rfl

/-- Rows of the expanded category frame all have the frame's width. -/
theorem catGrid_row_length {df : Table} {j : Nat} {pr : List (Option String)}
    (h : pr ∈ catGrid df j) : pr.length = gridWidth (catSplits df j) := by
  rw [catGrid] at h
  obtain ⟨o, ho, rfl⟩ := List.mem_map.1 h
  cases o with
  | none => simp [padTo]
  | some l =>
    have hl : l.length ≤ gridWidth (catSplits df j) := length_le_gridWidth ho
    simp [padTo, Nat.add_sub_cancel' hl]

/-- Cells of a transformed row are the dropped original cells followed by
derived integers, hence never missing when the original cells are not. -/
theorem transformed_row_no_null {df w : Table} (hw : cleanTransformed df = .ok w)
    (hnn : ∀ r ∈ df.rows, ∀ v ∈ r, v ≠ Value.null) :
    ∀ r ∈ w.rows, ∀ v ∈ r, v ≠ Value.null := by
  obtain ⟨j, row0, colnames, derived, hj, hh, hcn, hnd, hd, hwh, hwr⟩ :=
    cleanTransformed_ok_elim hw
  intro r hr v hv
  rw [hwr] at hr
  obtain ⟨n, hn⟩ := List.getElem?_of_mem hr
  obtain ⟨b, d, hb, hdn, hbd⟩ := List.getElem?_zipWith_eq_some.1 hn
  rw [← hbd] at hv
  rcases List.mem_append.1 hv with hvb | hvd
  · have hb' : b ∈ (dropCatTable df).rows := List.getElem?_mem hb
    rw [dropCatTable] at hb'
    obtain ⟨r0, hr0, rfl⟩ := List.mem_map.1 hb'
    exact hnn r0 hr0 v (mem_dropCat hvb)
  · obtain ⟨k, -, rfl⟩ := List.mem_map.1 hvd
    simp

theorem mapME_ok_get_rev {α β : Type} {f : α → Except Err β} {l : List α} {l' : List β}
    (h : mapME f l = .ok l') {n : Nat} {b : β} (hb : l'[n]? = some b) :
    ∃ a, l[n]? = some a ∧ f a = .ok b := by
  obtain ⟨hlen, hget⟩ := mapME_ok_spec h
  cases hla : l[n]? with
  | none =>
    rw [List.getElem?_eq_none_iff, ← hlen] at hla
    rw [List.getElem?_eq_none hla] at hb
    cases hb
  | some a =>
    obtain ⟨b', hfb, hb'⟩ := hget n a hla
    rw [hb] at hb'
    cases hb'
    exact ⟨a, rfl, hfb⟩

/-- Every row of a transformed table is no wider than its header list:
the kept original cells followed by one derived integer per category. -/
theorem transformed_row_length_le {df w : Table} (hw : cleanTransformed df = .ok w) :
    ∀ r ∈ w.rows, r.length ≤ w.headers.length := by
  obtain ⟨j, row0, colnames, derived, hj, hh, hcn, hnd, hd, hwh, hwr⟩ :=
    cleanTransformed_ok_elim hw
  intro r hr
  rw [hwr] at hr
  obtain ⟨n, hn⟩ := List.getElem?_of_mem hr
  obtain ⟨b, d, hb, hdn, hbd⟩ := List.getElem?_zipWith_eq_some.1 hn
  have hblen : b.length ≤ (dropCatHeaders df.headers).length := by
    have hmem : b ∈ (dropCatTable df).rows := List.getElem?_mem hb
    rw [dropCatTable] at hmem
    obtain ⟨r0, _, rfl⟩ := List.mem_map.1 hmem
    exact dropCat_length_le df.headers r0
  have hdlen : d.length = gridWidth (catSplits df j) := by
    obtain ⟨pr, hpr, hprd⟩ := mapME_ok_get_rev hd hdn
    have := (mapME_ok_spec hprd).1
    rw [this]
    exact catGrid_row_length (List.getElem?_mem hpr)
  have hcolen : colnames.length = gridWidth (catSplits df j) := by
    rw [(mapME_ok_spec hcn).1]
    obtain ⟨ys, hys⟩ := List.head?_eq_some_iff.1 hh
    exact catGrid_row_length (hys ▸ List.mem_cons_self row0 ys)
  rw [← hbd, hwh]
  simp only [List.length_append, List.length_map]
  omega

/-- The dtype flag list of a frame reads off the column dtype test. -/
theorem fillFlags_getD {t : Table} {n : Nat} (hn : n < t.headers.length) :
    (fillFlags t).getD n false = colIsNumeric (colAt t n) := by
  rw [fillFlags, List.getD_eq_getElem?_getD, List.getElem?_map,
    List.getElem?_range hn]
  rfl

/-! ### Claim theorems -/

/-- C10: the name of the persisted relational table is the fixed constant
`DisasterMessages` for every invocation: the Writer stores the cleaned
frame under that name in the destination database file, and any entry of
the store it changes is exactly that table of that file; only the
database file path varies with the command-line arguments. -/
theorem save_table_name_constant (df : Table) (f : String) (db : DBState) :
    save_data df f db f "DisasterMessages" = some df ∧
    ∀ f' n, save_data df f db f' n ≠ db f' n → f' = f ∧ n = "DisasterMessages" := by
  constructor
  · simp [save_data]
  · intro f' n h
    by_cases hc : f' = f ∧ n = "DisasterMessages"
    · exact hc
    · rw [save_data, if_neg hc] at h
      exact absurd rfl h

/-- Witness for C10 at a concrete frame, file and store: the cleaned rows
are stored under `DisasterMessages`, and writing into `out.db` changes
that entry only. -/
theorem save_table_name_constant_witness :
    save_data ⟨["id"], [[.int 1]]⟩ "out.db" (fun _ _ => none) "out.db" "DisasterMessages"
      = some ⟨["id"], [[.int 1]]⟩ ∧
    ("out.db" = "out.db" ∧ "DisasterMessages" = "DisasterMessages") :=
  ⟨(save_table_name_constant ⟨["id"], [[.int 1]]⟩ "out.db" (fun _ _ => none)).1,
   (save_table_name_constant ⟨["id"], [[.int 1]]⟩ "out.db" (fun _ _ => none)).2
     "out.db" "DisasterMessages" (by decide)⟩

/-- C5: running the full pipeline twice with identical inputs against the
same destination leaves the store exactly as one run does: the Writer
replaces any existing `DisasterMessages` table unconditionally, so the
second run overwrites the first run's table with identical contents. -/
theorem pipeline_overwrite_idempotent (m c : Table) (f : String) (db : DBState) :
    pipeline m c f (pipeline m c f db) = pipeline m c f db := by
  cases hld : load_data m c with
  | error e => simp [pipeline, hld]
  | ok df =>
    cases hcl : clean_data df with
    | error e => simp [pipeline, hld, hcl]
    | ok df2 =>
      funext file table
      by_cases hc : file = f ∧ table = "DisasterMessages"
      · simp [pipeline, hld, hcl, save_data, hc]
      · simp [pipeline, hld, hcl, save_data, hc]

/-- C9: on an empty joined table the Cleaner raises instead of returning
an empty cleaned table: with a `categories` column present, selecting the
first row of the expanded category frame (`iloc[0]`) fails with an
`IndexError`; without one it fails even earlier, so it never succeeds. -/
theorem clean_empty_input_errors (df : Table) (h : df.rows = []) :
    isOkE (clean_data df) = false ∧
    (getColIdx df.headers "categories" ≠ none → clean_data df = .error .indexError) := by
  cases hj : getColIdx df.headers "categories" with
  | none =>
    have hcd : clean_data df = .error .keyError := by
      simp [clean_data, cleanTransformed, hj]
    rw [hcd]
    exact ⟨rfl, fun hne => absurd rfl hne⟩
  | some j =>
    have hg : catGrid df j = [] := by simp [catGrid, catSplits, h]
    have hcd : clean_data df = .error .indexError := by
      simp [clean_data, cleanTransformed, hj, hg]
    rw [hcd]
    exact ⟨rfl, fun _ => rfl⟩

/-- Witness for C9: the empty joined table with columns `id, categories`
makes the Cleaner fail with an `IndexError`. -/
theorem clean_empty_input_errors_witness :
    (⟨["id", "categories"], []⟩ : Table).rows = [] ∧
    (isOkE (clean_data ⟨["id", "categories"], []⟩) = false ∧
      (getColIdx (⟨["id", "categories"], []⟩ : Table).headers "categories" ≠ none →
        clean_data ⟨["id", "categories"], []⟩ = .error .indexError)) :=
  ⟨rfl, clean_empty_input_errors ⟨["id", "categories"], []⟩ rfl⟩

/-- C3 is false as stated: `clean_data` is not free of side effects on its
argument.  On the joined table with columns `id, categories` and one row,
the call succeeds, and afterwards the argument object has lost its raw
`categories` column (line 56 drops it with `inplace=True`). -/
theorem clean_mutates_argument_cex :
    clean_data (⟨["id", "categories"], [[.int 1, .str "related-1"]]⟩ : Table) =
      .ok ⟨["id", "related"], [[.int 1, .int 1]]⟩ ∧
    cleanArgAfter ⟨["id", "categories"], [[.int 1, .str "related-1"]]⟩ ≠
      ⟨["id", "categories"], [[.int 1, .str "related-1"]]⟩ ∧
    getColIdx (cleanArgAfter
      ⟨["id", "categories"], [[.int 1, .str "related-1"]]⟩).headers "categories"
      = none :=
  ⟨by decide, by decide, by decide⟩

/-- C3 (amended): the only side effect of `clean_data` on its argument is
the in-place removal of the raw `categories` column, performed exactly
when the transformation stages (lines 38-52) succeed; every other
transformation affects only the returned table, and on an early failure
the argument is untouched. -/
theorem clean_effect_drops_categories (df : Table) :
    (isOkE (clean_data df) = true →
      cleanArgAfter df = dropCatTable df ∧
      (cleanArgAfter df).headers = df.headers.filter (fun x => x ≠ "categories") ∧
      (cleanArgAfter df).rows = df.rows.map (dropCat df.headers)) ∧
    (isOkE (clean_data df) = false → cleanArgAfter df = df) := by
  cases hct : cleanTransformed df with
  | ok w =>
    constructor
    · intro _
      rw [cleanArgAfter, hct]
      exact ⟨rfl, rfl, rfl⟩
    · intro hfalse
      rw [clean_data, hct] at hfalse
      exact absurd hfalse (by simp [isOkE])
  | error e =>
    constructor
    · intro htrue
      rw [clean_data, hct] at htrue
      exact absurd htrue (by simp [isOkE])
    · intro _
      rw [cleanArgAfter, hct]

/-- Witness for the amended C3 at a concrete successful input: after the
call the argument holds exactly its non-category columns. -/
theorem clean_effect_drops_categories_witness :
    isOkE (clean_data ⟨["id", "categories"], [[.int 2, .str "aid-0"]]⟩) = true ∧
    (cleanArgAfter ⟨["id", "categories"], [[.int 2, .str "aid-0"]]⟩ =
        dropCatTable ⟨["id", "categories"], [[.int 2, .str "aid-0"]]⟩ ∧
      (cleanArgAfter ⟨["id", "categories"], [[.int 2, .str "aid-0"]]⟩).headers =
        ["id", "categories"].filter (fun x => x ≠ "categories") ∧
      (cleanArgAfter ⟨["id", "categories"], [[.int 2, .str "aid-0"]]⟩).rows =
        [[Value.int 2, Value.str "aid-0"]].map (dropCat ["id", "categories"])) :=
  ⟨by decide,
   (clean_effect_drops_categories ⟨["id", "categories"], [[.int 2, .str "aid-0"]]⟩).1
     (by decide)⟩

/-- C4 is false as stated: the Cleaner cannot be applied to its own
output.  On a one-row joined table the first application succeeds, and
the second application raises a `KeyError` (the cleaned table has no raw
`categories` column) instead of returning a table with the same rows. -/
theorem reclean_fails_cex :
    clean_data (⟨["id", "categories"], [[.int 3, .str "water-1"]]⟩ : Table) =
      .ok ⟨["id", "water"], [[.int 3, .int 1]]⟩ ∧
    clean_data (⟨["id", "water"], [[.int 3, .int 1]]⟩ : Table) =
      .error .keyError :=
  ⟨by decide, by decide⟩

/-- C4 (amended): applying the Cleaner to a table it has already cleaned
removes no rows because it does not return at all: whenever the cleaned
output has no column labelled `categories` (in particular whenever no
derived category name is itself `categories`), the second application
fails with a missing-column `KeyError`. -/
theorem reclean_errors_missing_column (df t' : Table)
    (hok : clean_data df = .ok t')
    (hnc : "categories" ∉ t'.headers) :
    clean_data t' = .error .keyError ∧ ∀ u : Table, clean_data t' ≠ .ok u := by
  have hidx : getColIdx t'.headers "categories" = none := getColIdx_none_iff.2 hnc
  have herr : clean_data t' = .error .keyError := by
    simp [clean_data, cleanTransformed, hidx]
  exact ⟨herr, fun u hu => by rw [herr] at hu; cases hu⟩

/-- Witness for the amended C4 at a concrete input: cleaning once
succeeds, and re-cleaning the output fails with a `KeyError`. -/
theorem reclean_errors_missing_column_witness :
    clean_data (⟨["id", "categories"], [[.int 3, .str "water-1"]]⟩ : Table) =
      .ok ⟨["id", "water"], [[.int 3, .int 1]]⟩ ∧
    "categories" ∉ (⟨["id", "water"], [[.int 3, .int 1]]⟩ : Table).headers ∧
    (clean_data (⟨["id", "water"], [[.int 3, .int 1]]⟩ : Table) = .error .keyError ∧
      ∀ u : Table,
        clean_data (⟨["id", "water"], [[.int 3, .int 1]]⟩ : Table) ≠ .ok u) :=
  ⟨by decide, by decide,
   reclean_errors_missing_column
     ⟨["id", "categories"], [[.int 3, .str "water-1"]]⟩
     ⟨["id", "water"], [[.int 3, .int 1]]⟩ (by decide) (by decide)⟩

/-- C7 is false as stated: the Cleaner's output can contain two
fully-identical rows.  Deduplication (line 62) runs before null filling
(line 66), so two joined rows differing only in a missing value collapse
to the same row after filling, and both copies survive in the output. -/
theorem clean_output_duplicates_cex :
    clean_data (⟨["id", "x", "categories"],
        [[.int 1, .null, .str "related-1"], [.int 1, .int 0, .str "related-1"]]⟩
        : Table) =
      .ok ⟨["id", "x", "related"],
        [[.int 1, .int 0, .int 1], [.int 1, .int 0, .int 1]]⟩ ∧
    ¬ ([[Value.int 1, Value.int 0, Value.int 1],
        [Value.int 1, Value.int 0, Value.int 1]] : List Row).Nodup :=
  ⟨by decide, by decide⟩

/-- C7 (amended): when the joined input contains no missing values, exact
duplicate transformed rows collapse to one — the Cleaner's output has no
two fully-identical rows, and a transformed row appears in the output
exactly when it arises from some input row (so every non-duplicate row is
retained).  With missing values present, the null filling that follows
deduplication can re-introduce identical rows. -/
theorem clean_dedup_nodup_of_no_null (df w : Table)
    (hw : cleanTransformed df = .ok w)
    (hnn : ∀ r ∈ df.rows, ∀ v ∈ r, v ≠ Value.null) :
    ∃ t', clean_data df = .ok t' ∧ t'.rows.Nodup ∧
      (∀ r : Row, r ∈ t'.rows ↔ r ∈ w.rows) := by
  have hwnn := transformed_row_no_null hw hnn
  have hrows : (fillTable ⟨w.headers, dedupRows w.rows⟩).rows = dedupRows w.rows := by
    rw [fillTable]
    exact (List.map_congr_left (fun r hr =>
      fillRow_of_no_null (hwnn r (mem_dedupRows.1 hr)))).trans (List.map_id _)
  refine ⟨fillTable ⟨w.headers, dedupRows w.rows⟩, by simp [clean_data, hw], ?_, ?_⟩
  · rw [hrows]
    exact nodup_dedupRows w.rows
  · intro r
    rw [hrows]
    exact mem_dedupRows

/-- Witness for the amended C7: on a null-free two-row joined table whose
rows transform identically, the cleaned output keeps exactly one copy. -/
theorem clean_dedup_nodup_of_no_null_witness :
    cleanTransformed (⟨["id", "categories"],
        [[.int 1, .str "aid-1"], [.int 1, .str "aid-2"]]⟩ : Table) =
      .ok ⟨["id", "aid"], [[.int 1, .int 1], [.int 1, .int 1]]⟩ ∧
    (∀ r ∈ ([[Value.int 1, Value.str "aid-1"], [Value.int 1, Value.str "aid-2"]]
        : List Row), ∀ v ∈ r, v ≠ Value.null) ∧
    (∃ t', clean_data ⟨["id", "categories"],
        [[.int 1, .str "aid-1"], [.int 1, .str "aid-2"]]⟩ = .ok t' ∧
      t'.rows.Nodup ∧
      (∀ r : Row, r ∈ t'.rows ↔
        r ∈ (⟨["id", "aid"], [[.int 1, .int 1], [.int 1, .int 1]]⟩ : Table).rows)) :=
  ⟨by decide, by decide,
   clean_dedup_nodup_of_no_null
     ⟨["id", "categories"], [[.int 1, .str "aid-1"], [.int 1, .str "aid-2"]]⟩
     ⟨["id", "aid"], [[.int 1, .int 1], [.int 1, .int 1]]⟩
     (by decide) (by decide)⟩

/-- C6: after cleaning, no field of any row is missing: line 66 fills
every missing value, with `0` in a column whose dtype is numeric and the
placeholder `.` in every other column, and leaves present values
unchanged.  Stated on the deduplicated table that line 66 receives: the
Cleaner's output is exactly its filled version, contains no `null` cell,
and each cell is filled according to its column's dtype. -/
theorem clean_no_nulls_fill_spec (df w : Table) (hw : cleanTransformed df = .ok w) :
    clean_data df = .ok (fillTable ⟨w.headers, dedupRows w.rows⟩) ∧
    (∀ r ∈ (fillTable ⟨w.headers, dedupRows w.rows⟩).rows, ∀ v ∈ r, v ≠ Value.null) ∧
    (fillTable ⟨w.headers, dedupRows w.rows⟩).rows =
      (dedupRows w.rows).map (fillRow (fillFlags ⟨w.headers, dedupRows w.rows⟩)) ∧
    (∀ r ∈ dedupRows w.rows, ∀ (n : Nat) (v : Value), r[n]? = some v →
      (fillRow (fillFlags ⟨w.headers, dedupRows w.rows⟩) r)[n]? =
        some (if v = Value.null
          then (if colIsNumeric (colAt ⟨w.headers, dedupRows w.rows⟩ n)
            then Value.int 0 else Value.str ".")
          else v)) := by
  have hlen : ∀ r ∈ dedupRows w.rows, r.length ≤ w.headers.length := fun r hr =>
    transformed_row_length_le hw r (mem_dedupRows.1 hr)
  have hflags : (fillFlags ⟨w.headers, dedupRows w.rows⟩).length = w.headers.length := by
    simp [fillFlags]
  refine ⟨by simp [clean_data, hw], ?_, rfl, ?_⟩
  · intro r hr v hv
    rw [fillTable] at hr
    obtain ⟨r0, hr0, rfl⟩ := List.mem_map.1 hr
    exact fillRow_no_null (le_trans (hlen r0 hr0) (le_of_eq hflags.symm)) v hv
  · intro r hr n v hv
    have hnr : n < r.length := by
      by_contra hge
      rw [List.getElem?_eq_none (Nat.le_of_not_lt hge)] at hv
      cases hv
    have hn : n < (fillFlags ⟨w.headers, dedupRows w.rows⟩).length := by
      rw [hflags]
      exact lt_of_lt_of_le hnr (hlen r hr)
    have hflag : (fillFlags ⟨w.headers, dedupRows w.rows⟩).getD n false =
        colIsNumeric (colAt ⟨w.headers, dedupRows w.rows⟩ n) :=
      fillFlags_getD (hflags ▸ hn)
    rw [fillRow_getElem? hn, hv, Option.map_some', hflag]
    cases v with
    | null => simp [fillValue]
    | int k => simp [fillValue]
    | str s => simp [fillValue]

/-- Witness for C6 at a concrete joined table holding one missing value
in a string-typed column: cleaning succeeds and the missing cell is
filled with the placeholder `.`. -/
theorem clean_no_nulls_fill_spec_witness :
    cleanTransformed (⟨["id", "orig", "categories"],
        [[.int 1, .null, .str "related-1"], [.int 2, .str "hi", .str "related-0"]]⟩
        : Table) =
      .ok ⟨["id", "orig", "related"],
        [[.int 1, .null, .int 1], [.int 2, .str "hi", .int 0]]⟩ ∧
    (clean_data (⟨["id", "orig", "categories"],
        [[.int 1, .null, .str "related-1"], [.int 2, .str "hi", .str "related-0"]]⟩
        : Table) =
      .ok (fillTable ⟨["id", "orig", "related"],
        dedupRows [[Value.int 1, Value.null, Value.int 1],
          [Value.int 2, Value.str "hi", Value.int 0]]⟩) ∧
    (∀ r ∈ (fillTable ⟨["id", "orig", "related"],
        dedupRows [[Value.int 1, Value.null, Value.int 1],
          [Value.int 2, Value.str "hi", Value.int 0]]⟩).rows,
      ∀ v ∈ r, v ≠ Value.null) ∧
    (fillTable ⟨["id", "orig", "related"],
        dedupRows [[Value.int 1, Value.null, Value.int 1],
          [Value.int 2, Value.str "hi", Value.int 0]]⟩).rows =
      (dedupRows [[Value.int 1, Value.null, Value.int 1],
          [Value.int 2, Value.str "hi", Value.int 0]]).map
        (fillRow (fillFlags ⟨["id", "orig", "related"],
          dedupRows [[Value.int 1, Value.null, Value.int 1],
            [Value.int 2, Value.str "hi", Value.int 0]]⟩)) ∧
    (∀ r ∈ dedupRows [[Value.int 1, Value.null, Value.int 1],
          [Value.int 2, Value.str "hi", Value.int 0]],
      ∀ (n : Nat) (v : Value), r[n]? = some v →
        (fillRow (fillFlags ⟨["id", "orig", "related"],
          dedupRows [[Value.int 1, Value.null, Value.int 1],
            [Value.int 2, Value.str "hi", Value.int 0]]⟩) r)[n]? =
          some (if v = Value.null
            then (if colIsNumeric (colAt ⟨["id", "orig", "related"],
              dedupRows [[Value.int 1, Value.null, Value.int 1],
                [Value.int 2, Value.str "hi", Value.int 0]]⟩ n)
              then Value.int 0 else Value.str ".")
            else v))) :=
  ⟨by decide,
   clean_no_nulls_fill_spec
     ⟨["id", "orig", "categories"],
       [[.int 1, .null, .str "related-1"], [.int 2, .str "hi", .str "related-0"]]⟩
     ⟨["id", "orig", "related"],
       [[.int 1, .null, .int 1], [.int 2, .str "hi", .int 0]]⟩
     (by decide)⟩

/-- C8: if some row's category token does not end in a numeric digit, the
Cleaner fails instead of returning a table (line 52's `int(x)` raises);
and when every token ends in a digit, the integer-parse error branch is
unreachable — the Cleaner never reports a `ValueError`, whatever else the
input looks like. -/
theorem clean_parse_error_behavior (t : Table) :
    (hasBadToken t = true → isOkE (clean_data t) = false) ∧
    (allGoodTokens t = true → clean_data t ≠ .error .parseError) := by
  constructor
  · intro hbad
    rw [hasBadToken] at hbad
    cases hj : getColIdx t.headers "categories" with
    | none => rw [hj] at hbad; cases hbad
    | some j =>
      rw [hj, List.any_eq_true] at hbad
      obtain ⟨r, hr, hrP⟩ := hbad
      cases hcell : cellAt r j with
      | int n => rw [hcell] at hrP; cases hrP
      | null => rw [hcell] at hrP; cases hrP
      | str s =>
        rw [hcell, List.any_eq_true] at hrP
        obtain ⟨tok, htok, htokP⟩ := hrP
        cases hlast : strLast tok with
        | none => rw [hlast] at htokP; cases htokP
        | some c =>
          rw [hlast] at htokP
          have hcdig : c.isDigit = false := by simpa using htokP
          have htv : tokVal (some tok) = .error .parseError := by
            simp [tokVal, hlast, hcdig]
          cases hcd : clean_data t with
          | error e => simp [isOkE]
          | ok t' =>
            exfalso
            obtain ⟨w, hw, -⟩ := clean_data_ok_iff.1 hcd
            obtain ⟨j', row0, colnames, derived, hj', hh, hcn, hnd, hd, -, -⟩ :=
              cleanTransformed_ok_elim hw
            rw [hj] at hj'
            cases hj'
            have hpr : padTo (gridWidth (catSplits t j)) (splitCell (cellAt r j))
                ∈ catGrid t j := by
              rw [catGrid]
              exact List.mem_map_of_mem _ (by
                rw [catSplits]; exact List.mem_map_of_mem _ hr)
            obtain ⟨drow, hdrow⟩ := mapME_ok_forall hd _ hpr
            have hcellmem : some tok ∈
                padTo (gridWidth (catSplits t j)) (splitCell (cellAt r j)) := by
              rw [hcell]
              exact mem_padTo_of_mem htok
            obtain ⟨b, hb⟩ := mapME_ok_forall hdrow _ hcellmem
            rw [htv] at hb
            cases hb
  · intro hgood heq
    have hct : cleanTransformed t = .error .parseError := by
      rw [clean_data] at heq
      cases hct : cleanTransformed t with
      | error e => rw [hct] at heq; cases heq; rfl
      | ok w => rw [hct] at heq; cases heq
    rw [allGoodTokens] at hgood
    cases hj : getColIdx t.headers "categories" with
    | none =>
      have hke : cleanTransformed t = .error .keyError := by
        simp [cleanTransformed, hj]
      rw [hke] at hct
      cases hct
    | some j =>
      rw [hj, List.all_eq_true] at hgood
      cases hh : (catGrid t j).head? with
      | none =>
        have hie : cleanTransformed t = .error .indexError := by
          simp [cleanTransformed, hj, hh]
        rw [hie] at hct
        cases hct
      | some row0 =>
        cases hcn : mapME colNameOf row0 with
        | error e =>
          obtain ⟨cell, -, hcerr⟩ := mapME_error_mem hcn
          have he : e = .typeError := by
            cases cell with
            | none => simp [colNameOf] at hcerr; exact hcerr.symm
            | some tok => simp [colNameOf] at hcerr
          have hee : cleanTransformed t = .error e := by
            simp [cleanTransformed, hj, hh, hcn]
          rw [hee] at hct
          rw [he] at hct
          cases hct
        | ok colnames =>
          by_cases hnd : colnames.Nodup
          · cases hd : mapME (fun pr => mapME tokVal pr) (catGrid t j) with
            | ok derived =>
              have hok : cleanTransformed t = .ok ⟨dropCatHeaders t.headers ++ colnames,
                  List.zipWith (fun b d => b ++ d.map Value.int)
                    (dropCatTable t).rows derived⟩ := by
                simp [cleanTransformed, hj, hh, hcn, hnd, hd]
              rw [hok] at hct
              cases hct
            | error e =>
              obtain ⟨pr, hpr, hperr⟩ := mapME_error_mem hd
              obtain ⟨cell, hcellmem, hcellerr⟩ := mapME_error_mem hperr
              rw [catGrid] at hpr
              obtain ⟨o, ho, rfl⟩ := List.mem_map.1 hpr
              rw [catSplits] at ho
              obtain ⟨r, hrmem, rfl⟩ := List.mem_map.1 ho
              have hee : cleanTransformed t = .error e := by
                simp [cleanTransformed, hj, hh, hcn, hnd, hd]
              rw [hee] at hct
              cases hct
              cases cell with
              | none => simp [tokVal] at hcellerr
              | some tok =>
                obtain ⟨l, hsplit, htokmem⟩ := mem_padTo_elim hcellmem
                have hgr := hgood r hrmem
                cases hcell : cellAt r j with
                | int n => rw [hcell] at hsplit; simp [splitCell] at hsplit
                | null => rw [hcell] at hsplit; simp [splitCell] at hsplit
                | str s =>
                  rw [hcell] at hsplit hgr
                  rw [splitCell] at hsplit
                  cases hsplit
                  rw [List.all_eq_true] at hgr
                  have hgtok := hgr tok htokmem
                  cases hlast : strLast tok with
                  | none => rw [hlast] at hgtok; cases hgtok
                  | some c =>
                    rw [hlast] at hgtok
                    have hgd : c.isDigit = true := by simpa using hgtok
                    have : tokVal (some tok) =
                        .ok (if 0 < digitVal c then 1 else 0) := by
                      simp [tokVal, hlast, hgd]
                    rw [this] at hcellerr
                    cases hcellerr
          · have hke : cleanTransformed t = .error .keyError := by
              simp [cleanTransformed, hj, hh, hcn, hnd]
            rw [hke] at hct
            cases hct

/-- Witness for C8: a table whose only token is `aid-x` has a bad final
character and the Cleaner fails on it; a table whose tokens all end in
digits never yields the integer-parse error. -/
theorem clean_parse_error_behavior_witness :
    (hasBadToken (⟨["id", "categories"], [[.int 1, .str "aid-x"]]⟩ : Table) = true ∧
      isOkE (clean_data ⟨["id", "categories"], [[.int 1, .str "aid-x"]]⟩) = false) ∧
    (allGoodTokens (⟨["id", "categories"], [[.int 1, .str "aid-2"]]⟩ : Table) = true ∧
      clean_data (⟨["id", "categories"], [[.int 1, .str "aid-2"]]⟩ : Table) ≠
        .error .parseError) :=
  ⟨⟨by decide,
    (clean_parse_error_behavior ⟨["id", "categories"], [[.int 1, .str "aid-x"]]⟩).1
      (by decide)⟩,
   ⟨by decide,
    (clean_parse_error_behavior ⟨["id", "categories"], [[.int 1, .str "aid-2"]]⟩).2
      (by decide)⟩⟩

/-- C2: the Loader performs an inner equi-join on `id`: every row of its
output carries, at the `id` position, a value present in the `id` column
of both inputs (rows without a match on either side simply never arise);
and consequently every row of the cleaned output still carries, under an
`id`-labelled column, an identifier present in both inputs.  Identifiers
are assumed integer-valued as the data model requires. -/
theorem load_join_id_membership (msgs cats t : Table) (im jc : Nat)
    (him : getColIdx msgs.headers "id" = some im)
    (hjc : getColIdx cats.headers "id" = some jc)
    (hld : load_data msgs cats = .ok t)
    (hids : ∀ m ∈ msgs.rows, ∃ n : Int, m[im]? = some (.int n)) :
    (∀ r ∈ t.rows, ∃ n : Int,
        (∃ m ∈ msgs.rows, m[im]? = some (Value.int n)) ∧
        (∃ c ∈ cats.rows, cellAt c jc = Value.int n) ∧
        r[im]? = some (Value.int n)) ∧
    (∀ t', clean_data t = .ok t' → ∀ r' ∈ t'.rows, ∃ (n : Int) (i' : Nat),
        (∃ m ∈ msgs.rows, m[im]? = some (Value.int n)) ∧
        (∃ c ∈ cats.rows, cellAt c jc = Value.int n) ∧
        t'.headers[i']? = some "id" ∧ r'[i']? = some (Value.int n)) := by
  simp only [load_data, him, hjc] at hld
  cases hld
  have hkey : ∀ r ∈ (msgs.rows.flatMap (fun m =>
      (cats.rows.filter (fun c => cellAt c jc = cellAt m im)).map
        (fun c => m ++ c.eraseIdx jc))), ∃ n : Int,
      (∃ m ∈ msgs.rows, m[im]? = some (Value.int n)) ∧
      (∃ c ∈ cats.rows, cellAt c jc = Value.int n) ∧
      r[im]? = some (Value.int n) := by
    intro r hr
    obtain ⟨m, hm, hrm⟩ := List.mem_flatMap.1 hr
    obtain ⟨c, hcf, rfl⟩ := List.mem_map.1 hrm
    obtain ⟨hc, hceq⟩ := List.mem_filter.1 hcf
    obtain ⟨n, hmn⟩ := hids m hm
    have hcm : cellAt m im = Value.int n := by
      rw [cellAt, List.getD_eq_getElem?_getD, hmn]
      rfl
    have hcc : cellAt c jc = Value.int n := by
      rw [of_decide_eq_true hceq, hcm]
    have hlt : im < m.length := by
      rcases List.getElem?_eq_some.1 hmn with ⟨hl, -⟩
      exact hl
    refine ⟨n, ⟨m, hm, hmn⟩, ⟨c, hc, hcc⟩, ?_⟩
    rw [List.getElem?_append_left hlt]
    exact hmn
  refine ⟨hkey, ?_⟩
  intro t' hcl r' hr'
  obtain ⟨w, hw, rfl⟩ := clean_data_ok_iff.1 hcl
  obtain ⟨j', row0, colnames, derived, hj', hh, hcn, hnd, hd, hwh, hwr⟩ :=
    cleanTransformed_ok_elim hw
  simp only [fillTable] at hr'
  obtain ⟨r0, hr0, rfl⟩ := List.mem_map.1 hr'
  have hr0w : r0 ∈ w.rows := mem_dedupRows.1 hr0
  rw [hwr] at hr0w
  obtain ⟨nn, hnn⟩ := List.getElem?_of_mem hr0w
  obtain ⟨b, d, hb, hdn, hbd⟩ := List.getElem?_zipWith_eq_some.1 hnn
  rw [dropCatTable] at hb
  simp only [List.getElem?_map] at hb
  obtain ⟨rr, hrr, hbrr⟩ := Option.map_eq_some'.1 hb
  have hrrmem : rr ∈ (msgs.rows.flatMap (fun m =>
      (cats.rows.filter (fun c => cellAt c jc = cellAt m im)).map
        (fun c => m ++ c.eraseIdx jc))) := List.getElem?_mem hrr
  obtain ⟨n, hmside, hcside, hrim⟩ := hkey rr hrrmem
  -- position of the id column in the merged header list
  have hmh : msgs.headers[im]? = some "id" := getColIdx_some him
  have hmlt : im < msgs.headers.length := by
    rcases List.getElem?_eq_some.1 hmh with ⟨hl, -⟩
    exact hl
  have hth : (msgs.headers.map
        (fun h => if h ≠ "id" ∧ h ∈ cats.headers then h ++ "_left" else h)
      ++ (cats.headers.eraseIdx jc).map
        (fun h => if h ∈ msgs.headers then h ++ "_right" else h))[im]?
      = some "id" := by
    rw [List.getElem?_append_left (by simpa using hmlt), List.getElem?_map, hmh]
    simp
  obtain ⟨i', hdi, hdc⟩ := dropCat_getElem? hth (by decide) hrim
  have hdcb : b[i']? = some (Value.int n) := by
    rw [← hbrr]
    exact hdc
  have hilt : i' < b.length := by
    rcases List.getElem?_eq_some.1 hdcb with ⟨hl, -⟩
    exact hl
  have hr0i : r0[i']? = some (Value.int n) := by
    rw [← hbd, List.getElem?_append_left hilt]
    exact hdcb
  have hidlt : i' < (dropCatHeaders (msgs.headers.map
        (fun h => if h ≠ "id" ∧ h ∈ cats.headers then h ++ "_left" else h)
      ++ (cats.headers.eraseIdx jc).map
        (fun h => if h ∈ msgs.headers then h ++ "_right" else h))).length := by
    rcases List.getElem?_eq_some.1 hdi with ⟨hl, -⟩
    exact hl
  have hflt : i' < (fillFlags ⟨w.headers, dedupRows w.rows⟩).length := by
    simp only [fillFlags, List.length_map, List.length_range]
    rw [hwh]
    simp only [List.length_append]
    omega
  refine ⟨n, i', hmside, hcside, ?_, ?_⟩
  · simp only [fillTable]
    rw [hwh, List.getElem?_append_left hidlt]
    exact hdi
  · rw [fillRow_getElem? hflt, hr0i]
    rfl

/-- Witness for C2 on the spec's two-message example: the merged table
and its cleaned output both carry identifiers present in both inputs. -/
theorem load_join_id_membership_witness :
    getColIdx ["id", "message"] "id" = some 0 ∧
    getColIdx ["id", "categories"] "id" = some 0 ∧
    load_data ⟨["id", "message"], [[.int 1, .str "help"], [.int 2, .str "food"]]⟩
        ⟨["id", "categories"],
          [[.int 1, .str "related-1;request-0"], [.int 2, .str "related-0;request-1"]]⟩
      = .ok ⟨["id", "message", "categories"],
          [[.int 1, .str "help", .str "related-1;request-0"],
           [.int 2, .str "food", .str "related-0;request-1"]]⟩ ∧
    (∀ m ∈ ([[Value.int 1, Value.str "help"], [Value.int 2, Value.str "food"]]
        : List Row), ∃ n : Int, m[0]? = some (Value.int n)) ∧
    ((∀ r ∈ (⟨["id", "message", "categories"],
          [[.int 1, .str "help", .str "related-1;request-0"],
           [.int 2, .str "food", .str "related-0;request-1"]]⟩ : Table).rows,
        ∃ n : Int,
        (∃ m ∈ [[Value.int 1, Value.str "help"], [Value.int 2, Value.str "food"]],
          m[0]? = some (Value.int n)) ∧
        (∃ c ∈ [[Value.int 1, Value.str "related-1;request-0"],
            [Value.int 2, Value.str "related-0;request-1"]],
          cellAt c 0 = Value.int n) ∧
        r[0]? = some (Value.int n)) ∧
      (∀ t', clean_data ⟨["id", "message", "categories"],
          [[.int 1, .str "help", .str "related-1;request-0"],
           [.int 2, .str "food", .str "related-0;request-1"]]⟩ = .ok t' →
        ∀ r' ∈ t'.rows, ∃ (n : Int) (i' : Nat),
        (∃ m ∈ [[Value.int 1, Value.str "help"], [Value.int 2, Value.str "food"]],
          m[0]? = some (Value.int n)) ∧
        (∃ c ∈ [[Value.int 1, Value.str "related-1;request-0"],
            [Value.int 2, Value.str "related-0;request-1"]],
          cellAt c 0 = Value.int n) ∧
        t'.headers[i']? = some "id" ∧ r'[i']? = some (Value.int n))) := by
  have hids : ∀ m ∈ ([[Value.int 1, Value.str "help"],
      [Value.int 2, Value.str "food"]] : List Row),
      ∃ n : Int, m[0]? = some (Value.int n) := by
    intro m hm
    fin_cases hm
    · exact ⟨1, by simp⟩
    · exact ⟨2, by simp⟩
  exact ⟨by decide, by decide, by decide, hids,
    load_join_id_membership
      ⟨["id", "message"], [[.int 1, .str "help"], [.int 2, .str "food"]]⟩
      ⟨["id", "categories"],
        [[.int 1, .str "related-1;request-0"], [.int 2, .str "related-0;request-1"]]⟩
      ⟨["id", "message", "categories"],
        [[.int 1, .str "help", .str "related-1;request-0"],
         [.int 2, .str "food", .str "related-0;request-1"]]⟩
      0 0 (by decide) (by decide) (by decide) hids⟩

/-- C1: every row of the Cleaner's output stems from an input row whose
category string splits into one token per derived column, and the stored
value of the derived column `k` equals `1` exactly when the integer parse
of the final character of that row's `k`-th token is greater than `0`,
and `0` otherwise — so every derived value is exactly `0` or `1` (and a
token `aid-2` yields `1`, as the witness shows). -/
theorem clean_derived_values_spec (df t' : Table) (j : Nat)
    (hj : getColIdx df.headers "categories" = some j)
    (hwf : ∀ r ∈ df.rows, r.length = df.headers.length)
    (hok : clean_data df = .ok t') :
    ∀ r' ∈ t'.rows, ∃ r ∈ df.rows, ∃ s : String, cellAt r j = .str s ∧
      (splitSemi s).length = gridWidth (catSplits df j) ∧
      ∀ (k : Nat) (tok : String), (splitSemi s)[k]? = some tok → ∃ c : Char,
        strLast tok = some c ∧ c.isDigit = true ∧
        r'[(dropCatHeaders df.headers).length + k]? =
          some (.int (if 0 < digitVal c then 1 else 0)) ∧
        (r'[(dropCatHeaders df.headers).length + k]? = some (.int 0) ∨
          r'[(dropCatHeaders df.headers).length + k]? = some (.int 1)) := by
  obtain ⟨w, hw, rfl⟩ := clean_data_ok_iff.1 hok
  obtain ⟨j', row0, colnames, derived, hj', hh, hcn, hnd, hd, hwh, hwr⟩ :=
    cleanTransformed_ok_elim hw
  rw [hj] at hj'
  cases hj'
  intro r' hr'
  simp only [fillTable] at hr'
  obtain ⟨r0, hr0, rfl⟩ := List.mem_map.1 hr'
  have hr0w : r0 ∈ w.rows := mem_dedupRows.1 hr0
  rw [hwr] at hr0w
  obtain ⟨nn, hnn⟩ := List.getElem?_of_mem hr0w
  obtain ⟨b, d, hb, hdn, hbd⟩ := List.getElem?_zipWith_eq_some.1 hnn
  simp only [dropCatTable, List.getElem?_map] at hb
  obtain ⟨rr, hrr, hbrr⟩ := Option.map_eq_some'.1 hb
  have hrmem : rr ∈ df.rows := List.getElem?_mem hrr
  obtain ⟨pr, hpr, hprd⟩ := mapME_ok_get_rev hd hdn
  have hcs : (catSplits df j)[nn]? = some (splitCell (cellAt rr j)) := by
    rw [catSplits, List.getElem?_map, hrr]
    rfl
  have hpr' : pr = padTo (gridWidth (catSplits df j)) (splitCell (cellAt rr j)) := by
    rw [catGrid, List.getElem?_map, hcs] at hpr
    exact (Option.some.inj hpr).symm
  subst hpr'
  cases hcell : cellAt rr j with
  | int n =>
    exfalso
    rw [hcell] at hprd
    have hmem : (none : Option String) ∈
        padTo (gridWidth (catSplits df j)) (splitCell (Value.int n)) := by
      have hsc : splitCell (Value.int n) = none := rfl
      rw [hsc, padTo]
      exact List.mem_replicate.2 ⟨Nat.one_le_iff_ne_zero.1 (gridWidth_pos _), rfl⟩
    obtain ⟨bb, hbb⟩ := mapME_ok_forall hprd _ hmem
    rw [tokVal] at hbb
    cases hbb
  | null =>
    exfalso
    rw [hcell] at hprd
    have hmem : (none : Option String) ∈
        padTo (gridWidth (catSplits df j)) (splitCell Value.null) := by
      have hsc : splitCell Value.null = none := rfl
      rw [hsc, padTo]
      exact List.mem_replicate.2 ⟨Nat.one_le_iff_ne_zero.1 (gridWidth_pos _), rfl⟩
    obtain ⟨bb, hbb⟩ := mapME_ok_forall hprd _ hmem
    rw [tokVal] at hbb
    cases hbb
  | str s =>
    rw [hcell] at hprd
    have hle : (splitSemi s).length ≤ gridWidth (catSplits df j) :=
      length_le_gridWidth (by
        refine List.getElem?_mem (l := catSplits df j) (n := nn) ?_
        rw [hcs, hcell]
        rfl)
    have hLW : (splitSemi s).length = gridWidth (catSplits df j) := by
      by_contra hne
      have hlt : (splitSemi s).length < gridWidth (catSplits df j) :=
        lt_of_le_of_ne hle hne
      have hmem : (none : Option String) ∈
          padTo (gridWidth (catSplits df j)) (splitCell (Value.str s)) := by
        rw [show splitCell (Value.str s) = some (splitSemi s) from rfl, padTo]
        refine List.mem_append_right _ (List.mem_replicate.2 ⟨?_, rfl⟩)
        omega
      obtain ⟨bb, hbb⟩ := mapME_ok_forall hprd _ hmem
      rw [tokVal] at hbb
      cases hbb
    refine ⟨rr, hrmem, s, hcell, hLW, ?_⟩
    intro k tok htk
    have hprk : (padTo (gridWidth (catSplits df j)) (splitCell (Value.str s)))[k]?
        = some (some tok) := by
      rw [show splitCell (Value.str s) = some (splitSemi s) from rfl, padTo,
        ← hLW, Nat.sub_self, List.replicate_zero,
        List.append_nil, List.getElem?_map, htk]
      rfl
    obtain ⟨val, htv, hdk⟩ := (mapME_ok_spec hprd).2 k (some tok) hprk
    cases hlast : strLast tok with
    | none =>
      exfalso
      simp [tokVal, hlast] at htv
    | some c =>
      by_cases hdig : c.isDigit
      · have hval : val = if 0 < digitVal c then 1 else 0 := by
          simp [tokVal, hlast, hdig] at htv
          exact htv.symm
        have hblen : b.length = (dropCatHeaders df.headers).length := by
          rw [← hbrr]
          exact dropCat_length_eq (hwf rr hrmem)
        have hr0k : r0[(dropCatHeaders df.headers).length + k]? =
            some (Value.int val) := by
          rw [← hbd, ← hblen,
            List.getElem?_append_right (Nat.le_add_right b.length k),
            Nat.add_sub_cancel_left, List.getElem?_map, hdk]
          rfl
        have hW : colnames.length = gridWidth (catSplits df j) := by
          rw [(mapME_ok_spec hcn).1]
          obtain ⟨ys, hys⟩ := List.head?_eq_some_iff.1 hh
          exact catGrid_row_length (hys ▸ List.mem_cons_self row0 ys)
        have hklt : k < (splitSemi s).length := by
          rcases List.getElem?_eq_some.1 htk with ⟨hl, -⟩
          exact hl
        have hflt : (dropCatHeaders df.headers).length + k <
            (fillFlags ⟨w.headers, dedupRows w.rows⟩).length := by
          simp only [fillFlags, List.length_map, List.length_range]
          rw [hwh]
          simp only [List.length_append]
          omega
        have hcellval : (fillRow (fillFlags ⟨w.headers, dedupRows w.rows⟩)
            r0)[(dropCatHeaders df.headers).length + k]? =
            some (Value.int (if 0 < digitVal c then 1 else 0)) := by
          rw [fillRow_getElem? hflt, hr0k, Option.map_some', hval]
          rfl
        refine ⟨c, rfl, hdig, hcellval, ?_⟩
        by_cases hpos : 0 < digitVal c
        · right
          rw [hcellval, if_pos hpos]
        · left
          rw [hcellval, if_neg hpos]
      · exfalso
        simp [tokVal, hlast, hdig] at htv

/-- Witness for C1 on a table whose only token is `aid-2`: the derived
column `aid` holds `1` (the threshold maps the parsed `2` to `1`). -/
theorem clean_derived_values_spec_witness :
    getColIdx ["id", "categories"] "categories" = some 1 ∧
    (∀ r ∈ ([[Value.int 5, Value.str "aid-2"]] : List Row), r.length = 2) ∧
    clean_data (⟨["id", "categories"], [[.int 5, .str "aid-2"]]⟩ : Table) =
      .ok ⟨["id", "aid"], [[.int 5, .int 1]]⟩ ∧
    (∀ r' ∈ (⟨["id", "aid"], [[.int 5, .int 1]]⟩ : Table).rows,
      ∃ r ∈ (⟨["id", "categories"], [[.int 5, .str "aid-2"]]⟩ : Table).rows,
      ∃ s : String, cellAt r 1 = .str s ∧
      (splitSemi s).length =
        gridWidth (catSplits ⟨["id", "categories"], [[.int 5, .str "aid-2"]]⟩ 1) ∧
      ∀ (k : Nat) (tok : String), (splitSemi s)[k]? = some tok → ∃ c : Char,
        strLast tok = some c ∧ c.isDigit = true ∧
        r'[(dropCatHeaders ["id", "categories"]).length + k]? =
          some (.int (if 0 < digitVal c then 1 else 0)) ∧
        (r'[(dropCatHeaders ["id", "categories"]).length + k]? = some (.int 0) ∨
          r'[(dropCatHeaders ["id", "categories"]).length + k]? = some (.int 1))) :=
  ⟨by decide, by decide, by decide,
   clean_derived_values_spec
     ⟨["id", "categories"], [[.int 5, .str "aid-2"]]⟩
     ⟨["id", "aid"], [[.int 5, .int 1]]⟩ 1
     (by decide) (by decide) (by decide)⟩

end ProcessData
